import Mathlib

/-
Verification of the runit test-runner core (src/unnamed/part_006, the latest
TestRunner) and its decorator registration layer (src/src/decorators.ts,
src/src/common.ts), as a shallow embedding.

Modelling conventions:
- Machine time (os.clock) is an environment input; all elapsed times are
  modelled as 0 milliseconds.  No claim depends on concrete timing values.
- Lua/Luau Map and Record iteration is modelled as insertion order; the
  runner only ever appends, so each container has a well-defined insertion
  order.
- Class identity (constructors used as Map keys) is modelled by the class
  name; theorems that need distinct identities take a Nodup hypothesis.
- A test-method body is a pure function from its argument list to
  Except Value Unit: `Except.error e` models the body raising the value e,
  which the runner converts to text with Lua tostring.
- The runner additionally carries an `invocations` trace listing every
  actual call of a test method, in order; the source performs these calls
  at exactly the recorded points (runTestCase, line 117).  This
  instrumentation is needed to state execution-count and teardown claims.
- table.sort (used on testClasses in run(), lines 69-73) guarantees only a
  comparator-consistent permutation and is documented as not stable; it is
  modelled by the relation validSortOutput below, and run takes the
  already-sorted class list.
-/

namespace Runit

/-- Values flowing through tests: data-row entries and raised errors. -/
inductive Value where
  | num (n : Int)
  | str (s : String)
  | boolean (b : Bool)
deriving Repr, DecidableEq

/-- Lua tostring, applied by the runner to raised values (line 102). -/
def tostring : Value → String
  | Value.num n => toString n
  | Value.str s => s
  | Value.boolean b => if b then "true" else "false"

/-- repr(v, pretty false) from @rbxts/repr, used to display inputs
(formatInputs, line 232): strings are quoted, other scalars printed plainly. -/
def reprValue : Value → String
  | Value.num n => toString n
  | Value.str s => "\"" ++ s ++ "\""
  | Value.boolean b => if b then "true" else "false"

/-- A test-method body: receives the data-row arguments (empty for Facts)
and either returns normally or raises a value. -/
abbrev TestMethod := List Value → Except Value Unit

/-- One loaded test class together with the metadata the runner reads from
the Reflect side table: the property list (Reflect.getProperties), the
per-property Fact/Theory marks (Meta.Fact, Meta.Theory), the attached data
rows (Meta.TestData), the declared load order (Meta.LoadOrder, absent is
treated as math.huge by the comparator), and the bound methods. -/
structure TestClass where
  name : String
  properties : List String
  hasFactMeta : String → Bool
  hasTheoryMeta : String → Bool
  testData : String → Option (List (List Value))
  loadOrder : Option Int
  methods : String → TestMethod

/-- TestCaseResult (part_006 lines 13-17). -/
structure TestCaseResult where
  errorMessage : Option String
  timeElapsed : Nat
  inputs : Option (List Value)
deriving Repr, DecidableEq

/-- Record<string, TestCaseResult[]> in insertion order. -/
abbrev ClassResults := List (String × List TestCaseResult)

/-- Mutable runner state: results Map, the two counters, and the
invocation trace (class name, method name, arguments actually passed). -/
structure RunnerState where
  results : List (String × ClassResults)
  failedTests : Nat
  passedTests : Nat
  invocations : List (String × String × List Value)
deriving Repr, DecidableEq

/-- State of a freshly constructed TestRunner (fields at lines 50-52). -/
def initialState : RunnerState := ⟨[], 0, 0, []⟩

/-- (classResults[name] ??= []).push(result)  (line 97). -/
def addCase : ClassResults → String → TestCaseResult → ClassResults
  | [], name, r => [(name, [r])]
  | (n, rs) :: rest, name, r =>
      if n = name then (n, rs ++ [r]) :: rest
      else (n, rs) :: addCase rest name r

/-- this.results.get(TestClass) ?? this.results.set(TestClass, ...)  (line 96),
keyed by class identity (modelled by name). -/
def addToResults : List (String × ClassResults) → String → String → TestCaseResult →
    List (String × ClassResults)
  | [], clsName, name, r => [(clsName, addCase [] name r)]
  | (c, cr) :: rest, clsName, name, r =>
      if c = clsName then (c, addCase cr name r) :: rest
      else (c, cr) :: addToResults rest clsName name r

/-- addResult closure (lines 95-98). -/
def addResult (st : RunnerState) (clsName name : String) (r : TestCaseResult) : RunnerState :=
  { st with results := addToResults st.results clsName name r }

/-- fail closure (lines 99-106). -/
def fail (st : RunnerState) (clsName : String) (e : Value) (name : String)
    (timeElapsed : Nat) (inputs : Option (List Value)) : RunnerState :=
  addResult { st with failedTests := st.failedTests + 1 } clsName name
    ⟨some (tostring e), timeElapsed, inputs⟩

/-- pass closure (lines 107-113). -/
def pass (st : RunnerState) (clsName name : String)
    (timeElapsed : Nat) (inputs : Option (List Value)) : RunnerState :=
  addResult { st with passedTests := st.passedTests + 1 } clsName name
    ⟨none, timeElapsed, inputs⟩

/-- runTestCase closure (lines 114-125): invoke the body with the spread
arguments (args ?? []), catch any raised value, record fail or pass.  The
elapsed-time measurements are modelled as 0.  Also appends to the
invocation trace, since this is the single point where a test method is
called. -/
def runTestCase (st : RunnerState) (clsName : String) (testCase : TestMethod)
    (name : String) (args : Option (List Value)) : RunnerState × Bool :=
  let st := { st with invocations := st.invocations ++ [(clsName, name, args.getD [])] }
  match testCase (args.getD []) with
  | Except.error e => (fail st clsName e name 0 args, false)
  | Except.ok _ => (pass st clsName name 0 args, true)

/-- factNames (lines 85-93): properties carrying Meta.Fact. -/
def factNames (cls : TestClass) : List String :=
  cls.properties.filter cls.hasFactMeta

/-- theoryNames (lines 85-93): properties carrying Meta.Theory; the source
uses else-if, so a property marked as both lands only in factNames. -/
def theoryNames (cls : TestClass) : List String :=
  cls.properties.filter (fun p => !cls.hasFactMeta p && cls.hasTheoryMeta p)

/-- The fatal error text at line 135. -/
def noDataMsg (theoryName : String) : String :=
  "No data was provided to Theory test \"" ++ theoryName ++ "\""

/-- One iteration of the fact loop (lines 127-130); the boolean returned by
runTestCase only guards a no-op continue. -/
def factStep (cls : TestClass) (st : RunnerState) (factName : String) : RunnerState :=
  (runTestCase st cls.name (cls.methods factName) factName none).1

/-- One iteration of the theory loop (lines 132-141): missing data metadata
throws; otherwise the rows are executed in reverse declaration order
($range(size-1, 0, -1)). -/
def theoryStep (cls : TestClass) (st : RunnerState) (theoryName : String) :
    Except String RunnerState :=
  match cls.testData theoryName with
  | none => Except.error (noDataMsg theoryName)
  | some testCases =>
      Except.ok (testCases.reverse.foldl
        (fun st args => (runTestCase st cls.name (cls.methods theoryName) theoryName (some args)).1)
        st)

/-- runTestClass (lines 84-143): all facts first, then the theories. -/
def runTestClass (st : RunnerState) (cls : TestClass) : Except String RunnerState :=
  (theoryNames cls).foldlM (theoryStep cls) ((factNames cls).foldl (factStep cls) st)

/-- The class loop of run() (lines 77-78). -/
def runClasses (testClasses : List TestClass) (st : RunnerState) : Except String RunnerState :=
  testClasses.foldlM (fun st cls => runTestClass st cls) st

def GREEN : String := "\x1b[32m"

def RED : String := "\x1b[31m"

def RESET : String := "\x1b[0m"

/-- "  ".rep(n) and "   ".rep(n). -/
def strRep (s : String) (n : Nat) : String := String.join (List.replicate n s)

/-- getSymbol closure (lines 150-152). -/
def getSymbol (colors passed : Bool) : String :=
  if colors then (if passed then GREEN ++ "+" ++ RESET else RED ++ "×" ++ RESET)
  else (if passed then "+" else "×")

/-- formatTime (lines 32-46) restricted to whole milliseconds: at or above
1000 the figure is divided by 1000 and rounded half away from zero with
unit s, otherwise the millisecond figure is printed; the microsecond
branch is unreachable for whole-millisecond inputs. -/
def formatTime (ms : Nat) : String :=
  if ms >= 1000 then toString ((ms + 500) / 1000) ++ "s"
  else toString ms ++ "ms"

/-- formatInputs (lines 230-234). -/
def formatInputs : Option (List Value) → String
  | some inputs => String.intercalate ", " (inputs.map reprValue)
  | none => ""

/-- cases.reduce((acc, case) => acc + case.timeElapsed, 0). -/
def sumTimes (caseList : List TestCaseResult) : Nat :=
  caseList.foldl (fun acc c => acc + c.timeElapsed) 0

/-- cases.every(case => case.errorMessage === undefined). -/
def casesAllPassed (caseList : List TestCaseResult) : Bool :=
  caseList.all (fun c => c.errorMessage.isNone)

/-- The per-row lines of one parameterized method (lines 177-191): at that
point indent is 2, and each line is built as indent 1, the continuation bar
(a column bar when the owning method is the last sibling, else a space),
indent 2, then the row connector. -/
def caseLines (colors : Bool) (isLastResult : Bool) (caseList : List TestCaseResult) : String :=
  String.join (caseList.enum.map (fun ic =>
    let isLastCase := ic.1 == caseList.length - 1
    let passed := ic.2.errorMessage.isNone
    strRep "  " 1 ++ (if isLastResult then "│" else " ") ++ strRep "  " 2 ++
      (if isLastCase then "└" else "├") ++ "── [" ++ getSymbol colors passed ++ "] " ++
      formatInputs ic.2.inputs ++ " (" ++ formatTime ic.2.timeElapsed ++ ")\n"))

/-- One method entry of the class tree (lines 164-192).  totalElapsed
mirrors lines 166-169: filter the entry list by this name, then sum. -/
def methodBlock (colors : Bool) (entries : ClassResults) (idx : Nat)
    (entry : String × List TestCaseResult) : String :=
  let totalElapsed :=
    ((entries.filter (fun e => e.1 == entry.1)).map (fun e => sumTimes e.2)).foldl (· + ·) 0
  let allPassed := casesAllPassed entry.2
  let isLastResult := idx == entries.length - 1
  let hasInputs := match entry.2 with
    | [] => false
    | c :: _ => c.inputs.isSome
  strRep "  " 1 ++ (if isLastResult then "└" else "├") ++ "── [" ++
    getSymbol colors allPassed ++ "] " ++ entry.1 ++ " (" ++ formatTime totalElapsed ++ ")\n" ++
    (if hasInputs then caseLines colors isLastResult entry.2 else "")

/-- One class block of the tree (lines 154-195). -/
def classBlock (colors : Bool) (cb : String × ClassResults) : String :=
  let allPassed := cb.2.all (fun e => casesAllPassed e.2)
  let totalTime := (cb.2.map (fun e => sumTimes e.2)).foldl (· + ·) 0
  "[" ++ getSymbol colors allPassed ++ "] " ++ cb.1 ++ " (" ++ formatTime totalTime ++ ")\n" ++
    String.join (cb.2.enum.map (fun ie => methodBlock colors cb.2 ie.1 ie.2))

/-- One numbered failure entry (lines 205-219); indent is 1 inside the
entry, so the Inputs line is prefixed with one two-space indent and each
error-message line with one three-space indent. -/
def failureBlock (colors : Bool) (displayIndex : Nat) (testCaseName : String)
    (c : TestCaseResult) : String :=
  toString displayIndex ++ ". " ++ testCaseName ++ "\n" ++
    (match c.inputs with
     | some _ => strRep "  " 1 ++ "Inputs: " ++ formatInputs c.inputs ++ "\n"
     | none => "") ++
    (if colors then RED else "") ++
    String.intercalate "\n"
      (((c.errorMessage.getD "").splitOn "\n").map (fun line => strRep "   " 1 ++ line)) ++
    (if colors then RESET else "") ++ "\n" ++ "\n"

/-- All failing cases with their method names, in traversal order. -/
def failingCases (st : RunnerState) : List (String × TestCaseResult) :=
  (st.results.map (fun cb =>
    (cb.2.map (fun e => (e.2.filter (fun c => c.errorMessage.isSome)).map (fun c => (e.1, c)))).flatten)).flatten

/-- The failure section (lines 197-219): the header is printed exactly when
the failedTests counter is positive, and the entries are numbered from 1. -/
def failuresSection (colors : Bool) (st : RunnerState) : String :=
  (if st.failedTests > 0 then "\n" ++ "Failures:\n" else "") ++
    String.join ((failingCases st).enum.map (fun ie => failureBlock colors (ie.1 + 1) ie.2.1 ie.2.2))

/-- The summary lines (lines 221-225). -/
def summarySection (colors : Bool) (st : RunnerState) (elapsedTime : Nat) : String :=
  let totalTests := st.passedTests + st.failedTests
  "\n" ++ "Ran " ++ toString totalTests ++ " test" ++ (if totalTests != 1 then "s" else "") ++
    " in " ++ formatTime elapsedTime ++ "\n" ++
    (if colors then GREEN else "") ++ "Passed: " ++ toString st.passedTests ++
    (if colors then RESET else "") ++ "\n" ++
    (if colors then RED else "") ++ "Failed: " ++ toString st.failedTests ++
    (if colors then RESET else "") ++ "\n"

/-- generateOutput (lines 145-228); Map and Record iteration modelled as
insertion order. -/
def generateOutput (st : RunnerState) (elapsedTime : Nat) (colors : Bool) : String :=
  String.join (st.results.map (classBlock colors)) ++
    failuresSection colors st ++ summarySection colors st elapsedTime

/-- run() (lines 67-82): reset this.results to a fresh Map (line 68; the
two counters are NOT reset), execute every class in the sorted order, and
on success hand the rendered report to the reporter — the returned string
is exactly the text the reporter callback receives.  A thrown
configuration error propagates out as Except.error and the reporter is
never invoked.  The testClasses argument is the class list after the
table.sort of lines 69-73, which is modelled by validSortOutput below. -/
def run (testClasses : List TestClass) (colors : Bool) (st : RunnerState) :
    Except String (RunnerState × String) :=
  match runClasses testClasses { st with results := [] } with
  | Except.error e => Except.error e
  | Except.ok st => Except.ok (st, generateOutput st 0 colors)

/-- The comparator of lines 69-73: missing load order becomes math.huge,
and the Lua comparator returns (orderA < orderB). -/
def cmpLoadOrder (a b : TestClass) : Bool :=
  match a.loadOrder, b.loadOrder with
  | some x, some y => decide (x < y)
  | some _, none => true
  | none, some _ => false
  | none, none => false

/-- What it means for a list to be sorted for the comparator: no later
element strictly precedes an earlier one. -/
def sortedByCmp (l : List TestClass) : Prop :=
  l.Pairwise (fun a b => cmpLoadOrder b a = false)

/-- The contract of Lua table.sort with the load-order comparator: the
output is some comparator-sorted permutation of the input.  table.sort is
documented as not stable, so nothing more can be assumed. -/
def validSortOutput (input output : List TestClass) : Prop :=
  List.Perm output input ∧ sortedByCmp output

/-- Comparison of declared load orders with absent treated as plus
infinity (math.huge). -/
def rankLe (a b : Option Int) : Bool :=
  match a, b with
  | some x, some y => decide (x ≤ y)
  | some _, none => true
  | none, some _ => false
  | none, none => true

/-- Claim C7, parts one and two: declared load orders appear in ascending
order and every class with a declared order precedes every class without
one. -/
def ascendingByLoadOrder (output : List TestClass) : Prop :=
  ∀ i j : Fin output.length, (i : Nat) < (j : Nat) →
    rankLe (output.get i).loadOrder (output.get j).loadOrder = true

/-- Position of the class with the given name (classes are identified by
name). -/
def idxOfName (l : List TestClass) (n : String) : Nat :=
  l.findIdx (fun c => c.name == n)

/-- Claim C7, part three (stability): input positions of classes with equal
declared load orders are preserved in the output. -/
def tiesKeepDiscoveryOrder (input output : List TestClass) : Prop :=
  ∀ i j : Fin input.length, (i : Nat) < (j : Nat) →
    (input.get i).loadOrder = (input.get j).loadOrder →
    idxOfName output (input.get i).name < idxOfName output (input.get j).name

/-
Decorator registration layer (src/src/decorators.ts with src/src/common.ts).

Flamework Reflect semantics (external dependency @flamework/core): metadata
is a side table keyed by (object, property bucket, key), where the property
bucket is either a named property or a distinct object-level marker
(NO_PROP_MARKER) used when the property argument is omitted.  hasMetadata
without a property argument therefore consults only the object-level
bucket, never any property bucket.  This is also forced by the repository
itself: the README example class declares a Fact method followed by a
Theory method on the same class, which would throw at load time if
hasMetadata(ctor, key) could see property-level marks.  Property buckets
are modelled as some propertyKey, the object-level marker as none.
-/

/-- A stored metadata value: a boolean mark or a data-row list. -/
inductive MetaValue where
  | flag
  | rows (rs : List (List Value))
deriving Repr, DecidableEq

/-- The metadata side table of one class object. -/
structure Metadata where
  entries : List (Option String × String × MetaValue)
deriving Repr, DecidableEq

def emptyMetadata : Metadata := ⟨[]⟩

/-- Reflect.defineMetadata(obj, key, value, property?); later definitions
shadow earlier ones. -/
def defineMetadata (md : Metadata) (key : String) (value : MetaValue)
    (property : Option String) : Metadata :=
  ⟨(property, key, value) :: md.entries⟩

/-- Reflect.hasMetadata(obj, key, property?); an omitted property argument
is the object-level bucket none. -/
def hasMetadata (md : Metadata) (key : String) (property : Option String) : Bool :=
  md.entries.any (fun e => e.1 == property && e.2.1 == key)

namespace Meta

def Fact : String := "runit:fact"

def Theory : String := "runit:theory"

/-- decorators.ts refers to Meta.Data, which the shipped common.ts does not
declare (it declares InlineData instead); only its distinctness from the
other keys matters here. -/
def Data : String := "runit:data"

def LoadOrder : String := "runit:load_order"

end Meta

namespace Errors

/-- common.ts line 4. -/
def NotBoth : String := "[Runit]: A method cannot be marked as both a Fact and a Theory"

/-- decorators.ts refers to Errors.UnexpectedData, which the shipped
common.ts does not declare; modelled with the InvalidInlineData text of
common.ts line 5, the only data-misuse error it defines. -/
def UnexpectedData : String := "[Runit]: InlineData can only be used on Theories"

end Errors

/-- The Fact decorator (decorators.ts lines 12-19): both hasMetadata checks
omit the property argument, while the mark is defined on the property
bucket. -/
def Fact (md : Metadata) (propertyKey : String) : Except String Metadata :=
  if hasMetadata md Meta.Data none then Except.error Errors.UnexpectedData
  else if hasMetadata md Meta.Theory none then Except.error Errors.NotBoth
  else Except.ok (defineMetadata md Meta.Fact MetaValue.flag (some propertyKey))

/-- The Theory decorator (decorators.ts lines 29-34): the hasMetadata check
omits the property argument, while the mark is defined on the property
bucket. -/
def Theory (md : Metadata) (propertyKey : String) : Except String Metadata :=
  if hasMetadata md Meta.Fact none then Except.error Errors.NotBoth
  else Except.ok (defineMetadata md Meta.Theory MetaValue.flag (some propertyKey))

/-
Observers and derived quantities used to state the claims.
-/

/-- One planned case: a method name with its optional data row. -/
abbrev CaseSpec := String × Option (List Value)

/-- Executing one planned case, as runTestCase does. -/
def caseStep (cls : TestClass) (st : RunnerState) (spec : CaseSpec) : RunnerState :=
  (runTestCase st cls.name (cls.methods spec.1) spec.1 spec.2).1

/-- Executing a list of planned cases in order. -/
def execCases (cls : TestClass) (st : RunnerState) (specs : List CaseSpec) : RunnerState :=
  specs.foldl (caseStep cls) st

/-- The cases one theory contributes: its rows in reverse declaration
order. -/
def theorySpecs (cls : TestClass) (theoryName : String) : List CaseSpec :=
  ((cls.testData theoryName).getD []).reverse.map (fun args => (theoryName, some args))

/-- Every case a class schedules: all facts, then each theory. -/
def classSpecs (cls : TestClass) : List CaseSpec :=
  (factNames cls).map (fun n => (n, none)) ++ ((theoryNames cls).map (theorySpecs cls)).flatten

/-- Whether some theory-selected method of the class has no data metadata
at all (the condition of the fatal throw at lines 133-135). -/
def hasDatalessTheory (cls : TestClass) : Bool :=
  (theoryNames cls).any (fun t => (cls.testData t).isNone)

def lookupCases : ClassResults → String → List TestCaseResult
  | [], _ => []
  | (n, rs) :: rest, name => if n = name then rs else lookupCases rest name

def lookupClass : List (String × ClassResults) → String → ClassResults
  | [], _ => []
  | (c, cr) :: rest, clsName => if c = clsName then cr else lookupClass rest clsName

/-- The recorded result list of one method of one class. -/
def resultsFor (st : RunnerState) (clsName name : String) : List TestCaseResult :=
  lookupCases (lookupClass st.results clsName) name

/-- The result runTestCase records for one invocation of the body m on the
given optional data row. -/
def caseResult (m : TestMethod) (args : Option (List Value)) : TestCaseResult :=
  match m (args.getD []) with
  | Except.error e => ⟨some (tostring e), 0, args⟩
  | Except.ok _ => ⟨none, 0, args⟩

def classResultsCount (cr : ClassResults) : Nat := (cr.map (fun e => e.2.length)).sum

/-- Total number of case results recorded in the aggregate. -/
def totalRecorded (st : RunnerState) : Nat :=
  (st.results.map (fun cb => classResultsCount cb.2)).sum

def theoryRowCount (cls : TestClass) (t : String) : Nat := ((cls.testData t).getD []).length

/-- N + sum of k_i for one class: its Fact count plus the data-row count of
each of its theories. -/
def classCaseCount (cls : TestClass) : Nat :=
  (factNames cls).length + ((theoryNames cls).map (theoryRowCount cls)).sum

/-- N + sum of k_i over a class list. -/
def totalPlanned (classes : List TestClass) : Nat := (classes.map classCaseCount).sum

/-- The invocation-trace entry one planned case produces. -/
def specInvocation (cls : TestClass) (spec : CaseSpec) : String × String × List Value :=
  (cls.name, spec.1, spec.2.getD [])

/-- Every invocation a run over the class list performs, in order. -/
def plannedInvocations (classes : List TestClass) : List (String × String × List Value) :=
  (classes.map (fun cls => (classSpecs cls).map (specInvocation cls))).flatten

/-- Executing every class in order (the success path of the class loop). -/
def runAll (classes : List TestClass) (st : RunnerState) : RunnerState :=
  classes.foldl (fun st cls => execCases cls st (classSpecs cls)) st

/-
Bookkeeping lemmas about the result store.
-/

lemma lookupCases_addCase (cr : ClassResults) (name name' : String) (r : TestCaseResult) :
    lookupCases (addCase cr name r) name' =
      if name' = name then lookupCases cr name' ++ [r] else lookupCases cr name' := by
  induction cr with
  | nil =>
      by_cases h : name' = name
      · subst h; simp [addCase, lookupCases]
      · have h' : name ≠ name' := fun hh => h hh.symm
        simp [addCase, lookupCases, h, h']
  | cons head rest ih =>
      obtain ⟨n, rs⟩ := head
      simp only [addCase]
      by_cases h1 : n = name
      · subst h1
        simp only [if_pos rfl]
        by_cases h2 : n = name'
        · subst h2; simp [lookupCases]
        · have h2' : name' ≠ n := fun hh => h2 hh.symm
          simp [lookupCases, h2, h2']
      · simp only [if_neg h1, lookupCases]
        by_cases h2 : n = name'
        · subst h2
          have h1' : ¬(n = name) := h1
          simp [lookupCases, h1']
        · simp [lookupCases, h2, ih]

lemma lookupClass_addToResults (rs : List (String × ClassResults)) (c c' n : String)
    (r : TestCaseResult) :
    lookupClass (addToResults rs c n r) c' =
      if c' = c then addCase (lookupClass rs c') n r else lookupClass rs c' := by
  induction rs with
  | nil =>
      by_cases h : c' = c
      · subst h; simp [addToResults, lookupClass]
      · have h' : c ≠ c' := fun hh => h hh.symm
        simp [addToResults, lookupClass, h, h']
  | cons head rest ih =>
      obtain ⟨cn, cr⟩ := head
      simp only [addToResults]
      by_cases h1 : cn = c
      · subst h1
        simp only [if_pos rfl]
        by_cases h2 : cn = c'
        · subst h2; simp [lookupClass]
        · have h2' : c' ≠ cn := fun hh => h2 hh.symm
          simp [lookupClass, h2, h2']
      · simp only [if_neg h1, lookupClass]
        by_cases h2 : cn = c'
        · subst h2
          have h1' : ¬(cn = c) := h1
          simp [lookupClass, h1']
        · simp [lookupClass, h2, ih]

lemma resultsFor_addResult (st : RunnerState) (c n : String) (r : TestCaseResult)
    (c' n' : String) :
    resultsFor (addResult st c n r) c' n' =
      if c' = c ∧ n' = n then resultsFor st c' n' ++ [r] else resultsFor st c' n' := by
  unfold resultsFor addResult
  dsimp only
  rw [lookupClass_addToResults]
  by_cases hc : c' = c
  · rw [if_pos hc, lookupCases_addCase]
    by_cases hn : n' = n
    · rw [if_pos hn, if_pos ⟨hc, hn⟩]
    · rw [if_neg hn, if_neg (fun h => hn h.2)]
  · rw [if_neg hc, if_neg (fun h => hc h.1)]

lemma classResultsCount_addCase (cr : ClassResults) (name : String) (r : TestCaseResult) :
    classResultsCount (addCase cr name r) = classResultsCount cr + 1 := by
  induction cr with
  | nil => simp [addCase, classResultsCount]
  | cons head rest ih =>
      obtain ⟨n, rs⟩ := head
      by_cases h : n = name
      · simp [addCase, h, classResultsCount]
        omega
      · simp only [addCase, if_neg h]
        simp only [classResultsCount, List.map_cons, List.sum_cons] at ih ⊢
        omega

lemma totalRecorded_addResult (st : RunnerState) (c n : String) (r : TestCaseResult) :
    totalRecorded (addResult st c n r) = totalRecorded st + 1 := by
  unfold totalRecorded addResult
  simp only
  induction st.results with
  | nil => simp [addToResults, addCase, classResultsCount]
  | cons head rest ih =>
      obtain ⟨cn, cr⟩ := head
      by_cases h : cn = c
      · simp [addToResults, h, classResultsCount_addCase]
        omega
      · simp only [addToResults, if_neg h, List.map_cons, List.sum_cons] at ih ⊢
        omega

/-
Per-invocation lemmas: each runTestCase call increments exactly one
counter, records exactly one result (under its own class and method name),
and appends exactly one trace entry.
-/

lemma runTestCase_counters (st : RunnerState) (c : String) (m : TestMethod)
    (n : String) (args : Option (List Value)) :
    ((runTestCase st c m n args).1).passedTests + ((runTestCase st c m n args).1).failedTests =
      st.passedTests + st.failedTests + 1 := by
  cases h : m (args.getD []) <;>
    simp [runTestCase, h, fail, pass, addResult] <;> omega

lemma runTestCase_totalRecorded (st : RunnerState) (c : String) (m : TestMethod)
    (n : String) (args : Option (List Value)) :
    totalRecorded (runTestCase st c m n args).1 = totalRecorded st + 1 := by
  cases h : m (args.getD []) <;>
    simp only [runTestCase, h, fail, pass] <;>
    rw [totalRecorded_addResult] <;> rfl

lemma runTestCase_invocations (st : RunnerState) (c : String) (m : TestMethod)
    (n : String) (args : Option (List Value)) :
    ((runTestCase st c m n args).1).invocations = st.invocations ++ [(c, n, args.getD [])] := by
  cases h : m (args.getD []) <;>
    simp [runTestCase, h, fail, pass, addResult]

lemma runTestCase_resultsFor (st : RunnerState) (c : String) (m : TestMethod)
    (n : String) (args : Option (List Value)) (c' n' : String) :
    resultsFor (runTestCase st c m n args).1 c' n' =
      if c' = c ∧ n' = n then resultsFor st c' n' ++ [caseResult m args]
      else resultsFor st c' n' := by
  have hres : ∀ st2 : RunnerState, st2.results = st.results → resultsFor st2 c' n' = resultsFor st c' n' := by
    intro st2 h2
    unfold resultsFor
    rw [h2]
  cases h : m (args.getD []) with
  | error e =>
      simp only [runTestCase, h, fail, caseResult]
      rw [show (addResult
        { st with
          invocations := st.invocations ++ [(c, n, args.getD [])],
          failedTests := st.failedTests + 1 } c n ⟨some (tostring e), 0, args⟩ : RunnerState) =
        addResult
        { st with
          invocations := st.invocations ++ [(c, n, args.getD [])],
          failedTests := st.failedTests + 1 } c n ⟨some (tostring e), 0, args⟩ from rfl]
      rw [resultsFor_addResult]
      have h1 : resultsFor
          { st with
            invocations := st.invocations ++ [(c, n, args.getD [])],
            failedTests := st.failedTests + 1 } c' n' = resultsFor st c' n' := hres _ rfl
      by_cases hcn : c' = c ∧ n' = n
      · rw [if_pos hcn, if_pos hcn]
        obtain ⟨hc, hn⟩ := hcn
        subst hc; subst hn
        rw [h1]
      · rw [if_neg hcn, if_neg hcn, h1]
  | ok u =>
      simp only [runTestCase, h, pass, caseResult]
      rw [resultsFor_addResult]
      have h1 : resultsFor
          { st with
            invocations := st.invocations ++ [(c, n, args.getD [])],
            passedTests := st.passedTests + 1 } c' n' = resultsFor st c' n' := hres _ rfl
      by_cases hcn : c' = c ∧ n' = n
      · rw [if_pos hcn, if_pos hcn]
        obtain ⟨hc, hn⟩ := hcn
        subst hc; subst hn
        rw [h1]
      · rw [if_neg hcn, if_neg hcn, h1]

/-
Fold lemmas: executing a list of planned cases adds exactly its length to
the counters, to the recorded totals and to the trace, and appends the
matching case results per method name.
-/

lemma execCases_counters (cls : TestClass) (specs : List CaseSpec) :
    ∀ st : RunnerState,
      (execCases cls st specs).passedTests + (execCases cls st specs).failedTests =
        st.passedTests + st.failedTests + specs.length := by
  induction specs with
  | nil => intro st; simp [execCases]
  | cons sp specs ih =>
      intro st
      have h1 := ih (caseStep cls st sp)
      have h2 := runTestCase_counters st cls.name (cls.methods sp.1) sp.1 sp.2
      simp only [execCases, List.foldl_cons] at h1 ⊢
      simp only [caseStep] at h1 ⊢
      simp only [List.length_cons]
      omega

lemma execCases_totalRecorded (cls : TestClass) (specs : List CaseSpec) :
    ∀ st : RunnerState,
      totalRecorded (execCases cls st specs) = totalRecorded st + specs.length := by
  induction specs with
  | nil => intro st; simp [execCases]
  | cons sp specs ih =>
      intro st
      have h1 := ih (caseStep cls st sp)
      have h2 := runTestCase_totalRecorded st cls.name (cls.methods sp.1) sp.1 sp.2
      simp only [execCases, List.foldl_cons] at h1 ⊢
      simp only [caseStep] at h1 ⊢
      simp only [List.length_cons]
      omega

lemma execCases_invocations (cls : TestClass) (specs : List CaseSpec) :
    ∀ st : RunnerState,
      (execCases cls st specs).invocations =
        st.invocations ++ specs.map (specInvocation cls) := by
  induction specs with
  | nil => intro st; simp [execCases]
  | cons sp specs ih =>
      intro st
      have h1 := ih (caseStep cls st sp)
      have h2 := runTestCase_invocations st cls.name (cls.methods sp.1) sp.1 sp.2
      simp only [execCases, List.foldl_cons] at h1 ⊢
      simp only [caseStep] at h1 ⊢
      rw [h1, h2]
      simp [specInvocation, List.append_assoc]

lemma execCases_resultsFor (cls : TestClass) (specs : List CaseSpec) :
    ∀ (st : RunnerState) (c' n' : String),
      resultsFor (execCases cls st specs) c' n' =
        resultsFor st c' n' ++
          (if c' = cls.name then
            (specs.filter (fun sp => sp.1 == n')).map
              (fun sp => caseResult (cls.methods sp.1) sp.2)
          else []) := by
  induction specs with
  | nil => intro st c' n'; simp [execCases]
  | cons sp specs ih =>
      intro st c' n'
      have h1 := ih (caseStep cls st sp) c' n'
      have h2 := runTestCase_resultsFor st cls.name (cls.methods sp.1) sp.1 sp.2 c' n'
      simp only [execCases, List.foldl_cons] at h1 ⊢
      simp only [caseStep] at h1 ⊢
      rw [h1, h2]
      by_cases hc : c' = cls.name
      · by_cases hn : sp.1 = n'
        · have hcn : c' = cls.name ∧ n' = sp.1 := ⟨hc, hn.symm⟩
          rw [if_pos hcn, if_pos hc, if_pos hc]
          simp [List.filter_cons, hn, List.append_assoc]
        · have hcn : ¬(c' = cls.name ∧ n' = sp.1) := fun hh => hn hh.2.symm
          rw [if_neg hcn, if_pos hc, if_pos hc]
          have hb : (sp.1 == n') = false := by
            simp [hn]
          simp [List.filter_cons, hb]
      · have hcn : ¬(c' = cls.name ∧ n' = sp.1) := fun hh => hc hh.1
        rw [if_neg hcn, if_neg hc, if_neg hc]

/-
Characterizing runTestClass: it succeeds exactly when every selected
theory has data metadata, in which case it executes the planned cases of
the class in order; otherwise it throws the no-data error of the first
offending theory.
-/

lemma execCases_append (cls : TestClass) (st : RunnerState) (l1 l2 : List CaseSpec) :
    execCases cls st (l1 ++ l2) = execCases cls (execCases cls st l1) l2 := by
  simp [execCases, List.foldl_append]

lemma factsFold_eq (cls : TestClass) (st : RunnerState) :
    (factNames cls).foldl (factStep cls) st =
      execCases cls st ((factNames cls).map (fun n => (n, none))) := by
  simp only [execCases, List.foldl_map]
  rfl

lemma theoryStep_some (cls : TestClass) (st : RunnerState) (t : String)
    (rows : List (List Value)) (h : cls.testData t = some rows) :
    theoryStep cls st t = Except.ok (execCases cls st (theorySpecs cls t)) := by
  simp only [theoryStep, theorySpecs, h, Option.getD_some, execCases, List.foldl_map]
  rfl

lemma theoryStep_none (cls : TestClass) (st : RunnerState) (t : String)
    (h : cls.testData t = none) :
    theoryStep cls st t = Except.error (noDataMsg t) := by
  simp [theoryStep, h]

lemma theoryFold_ok (cls : TestClass) (ts : List String) :
    ∀ st : RunnerState, (∀ t ∈ ts, (cls.testData t).isSome) →
      ts.foldlM (theoryStep cls) st =
        Except.ok (execCases cls st ((ts.map (theorySpecs cls)).flatten)) := by
  induction ts with
  | nil => intro st _; rfl
  | cons t ts ih =>
      intro st h
      obtain ⟨rows, hrows⟩ := Option.isSome_iff_exists.mp (h t (List.mem_cons_self t ts))
      rw [List.foldlM_cons, theoryStep_some cls st t rows hrows]
      have hbind : (Except.ok (execCases cls st (theorySpecs cls t)) >>=
          fun st => ts.foldlM (theoryStep cls) st) =
          ts.foldlM (theoryStep cls) (execCases cls st (theorySpecs cls t)) := rfl
      rw [hbind, ih _ (fun t' ht' => h t' (List.mem_cons_of_mem _ ht'))]
      rw [List.map_cons, List.flatten_cons, execCases_append]

lemma theoryFold_error (cls : TestClass) (ts : List String) :
    ∀ st : RunnerState, (∃ t ∈ ts, cls.testData t = none) →
      ∃ t, ts.foldlM (theoryStep cls) st = Except.error (noDataMsg t) ∧
        t ∈ ts ∧ cls.testData t = none := by
  induction ts with
  | nil => intro st h; simp at h
  | cons t0 ts ih =>
      intro st h
      cases hdata : cls.testData t0 with
      | none =>
          refine ⟨t0, ?_, List.mem_cons_self t0 ts, hdata⟩
          rw [List.foldlM_cons, theoryStep_none cls st t0 hdata]
          rfl
      | some rows =>
          have h' : ∃ t ∈ ts, cls.testData t = none := by
            obtain ⟨t, ht, htd⟩ := h
            rcases List.mem_cons.mp ht with h0 | h1
            · subst h0; rw [hdata] at htd; cases htd
            · exact ⟨t, h1, htd⟩
          rw [List.foldlM_cons, theoryStep_some cls st t0 rows hdata]
          obtain ⟨t, heq, hmem, htd⟩ := ih (execCases cls st (theorySpecs cls t0)) h'
          refine ⟨t, ?_, List.mem_cons_of_mem _ hmem, htd⟩
          have hbind : (Except.ok (execCases cls st (theorySpecs cls t0)) >>=
              fun st => ts.foldlM (theoryStep cls) st) =
              ts.foldlM (theoryStep cls) (execCases cls st (theorySpecs cls t0)) := rfl
          rw [hbind, heq]

lemma runTestClass_ok (cls : TestClass) (st : RunnerState)
    (h : hasDatalessTheory cls = false) :
    runTestClass st cls = Except.ok (execCases cls st (classSpecs cls)) := by
  have hall : ∀ t ∈ theoryNames cls, (cls.testData t).isSome := by
    intro t ht
    unfold hasDatalessTheory at h
    rw [List.any_eq_false] at h
    have := h t ht
    cases hd : cls.testData t with
    | none => rw [hd] at this; simp at this
    | some rows => simp
  unfold runTestClass
  rw [factsFold_eq, theoryFold_ok cls _ _ hall]
  unfold classSpecs
  rw [execCases_append]

lemma runTestClass_error (cls : TestClass) (st : RunnerState)
    (h : hasDatalessTheory cls = true) :
    ∃ t, runTestClass st cls = Except.error (noDataMsg t) ∧
      t ∈ theoryNames cls ∧ cls.testData t = none := by
  unfold runTestClass
  apply theoryFold_error
  unfold hasDatalessTheory at h
  rw [List.any_eq_true] at h
  obtain ⟨t, ht, htd⟩ := h
  exact ⟨t, ht, Option.isNone_iff_eq_none.mp htd⟩

lemma runClasses_ok (classes : List TestClass) :
    ∀ st : RunnerState, classes.any hasDatalessTheory = false →
      runClasses classes st = Except.ok (runAll classes st) := by
  induction classes with
  | nil => intro st _; rfl
  | cons c cs ih =>
      intro st h
      rw [List.any_cons, Bool.or_eq_false_iff] at h
      obtain ⟨h1, h2⟩ := h
      unfold runClasses
      rw [List.foldlM_cons, runTestClass_ok c st h1]
      have hbind : (Except.ok (execCases c st (classSpecs c)) >>=
          fun st => cs.foldlM (fun st cls => runTestClass st cls) st) =
          cs.foldlM (fun st cls => runTestClass st cls) (execCases c st (classSpecs c)) := rfl
      rw [hbind]
      have := ih (execCases c st (classSpecs c)) h2
      unfold runClasses at this
      rw [this]
      simp [runAll, List.foldl_cons]

lemma runClasses_error (classes : List TestClass) :
    ∀ st : RunnerState, classes.any hasDatalessTheory = true →
      ∃ t cls, runClasses classes st = Except.error (noDataMsg t) ∧
        cls ∈ classes ∧ t ∈ theoryNames cls ∧ cls.testData t = none := by
  induction classes with
  | nil => intro st h; simp at h
  | cons c cs ih =>
      intro st h
      cases hc : hasDatalessTheory c with
      | true =>
          obtain ⟨t, heq, hmem, htd⟩ := runTestClass_error c st hc
          refine ⟨t, c, ?_, List.mem_cons_self c cs, hmem, htd⟩
          unfold runClasses
          rw [List.foldlM_cons, heq]
          rfl
      | false =>
          have h2 : cs.any hasDatalessTheory = true := by
            rw [List.any_cons, hc] at h
            simpa using h
          obtain ⟨t, cls, heq, hmem, hth, htd⟩ := ih (execCases c st (classSpecs c)) h2
          refine ⟨t, cls, ?_, List.mem_cons_of_mem _ hmem, hth, htd⟩
          unfold runClasses
          rw [List.foldlM_cons, runTestClass_ok c st hc]
          have hbind : (Except.ok (execCases c st (classSpecs c)) >>=
              fun st => cs.foldlM (fun st cls => runTestClass st cls) st) =
              cs.foldlM (fun st cls => runTestClass st cls) (execCases c st (classSpecs c)) := rfl
          rw [hbind]
          unfold runClasses at heq
          rw [heq]

lemma run_ok (classes : List TestClass) (colors : Bool) (st : RunnerState)
    (h : classes.any hasDatalessTheory = false) :
    run classes colors st =
      Except.ok (runAll classes { st with results := [] },
        generateOutput (runAll classes { st with results := [] }) 0 colors) := by
  unfold run
  rw [runClasses_ok classes { st with results := [] } h]

lemma run_error (classes : List TestClass) (colors : Bool) (st : RunnerState)
    (h : classes.any hasDatalessTheory = true) :
    ∃ t cls, run classes colors st = Except.error (noDataMsg t) ∧
      cls ∈ classes ∧ t ∈ theoryNames cls ∧ cls.testData t = none := by
  obtain ⟨t, cls, heq, hmem, hth, htd⟩ :=
    runClasses_error classes { st with results := [] } h
  refine ⟨t, cls, ?_, hmem, hth, htd⟩
  unfold run
  rw [heq]

/-
Aggregate lemmas over the whole class list.
-/

lemma classSpecs_length (cls : TestClass) :
    (classSpecs cls).length = classCaseCount cls := by
  unfold classSpecs classCaseCount
  rw [List.length_append, List.length_map, List.length_flatten]
  congr 1
  rw [List.map_map]
  congr 1
  apply List.map_congr_left
  intro t _
  simp [theorySpecs, theoryRowCount]

lemma runAll_counters (classes : List TestClass) :
    ∀ st : RunnerState,
      (runAll classes st).passedTests + (runAll classes st).failedTests =
        st.passedTests + st.failedTests + totalPlanned classes := by
  induction classes with
  | nil => intro st; simp [runAll, totalPlanned]
  | cons c cs ih =>
      intro st
      simp only [runAll, List.foldl_cons] at ih ⊢
      have h1 := ih (execCases c st (classSpecs c))
      have h2 := execCases_counters c (classSpecs c) st
      have h3 := classSpecs_length c
      simp only [totalPlanned, List.map_cons, List.sum_cons] at h1 ⊢
      omega

lemma runAll_totalRecorded (classes : List TestClass) :
    ∀ st : RunnerState,
      totalRecorded (runAll classes st) = totalRecorded st + totalPlanned classes := by
  induction classes with
  | nil => intro st; simp [runAll, totalPlanned]
  | cons c cs ih =>
      intro st
      simp only [runAll, List.foldl_cons] at ih ⊢
      have h1 := ih (execCases c st (classSpecs c))
      have h2 := execCases_totalRecorded c (classSpecs c) st
      have h3 := classSpecs_length c
      simp only [totalPlanned, List.map_cons, List.sum_cons] at h1 ⊢
      omega

lemma runAll_invocations (classes : List TestClass) :
    ∀ st : RunnerState,
      (runAll classes st).invocations = st.invocations ++ plannedInvocations classes := by
  induction classes with
  | nil => intro st; simp [runAll, plannedInvocations]
  | cons c cs ih =>
      intro st
      simp only [runAll, List.foldl_cons] at ih ⊢
      rw [ih (execCases c st (classSpecs c)), execCases_invocations]
      simp [plannedInvocations, List.append_assoc]

lemma plannedInvocations_length (classes : List TestClass) :
    (plannedInvocations classes).length = totalPlanned classes := by
  unfold plannedInvocations totalPlanned
  rw [List.length_flatten, List.map_map]
  congr 1
  apply List.map_congr_left
  intro c _
  simp [classSpecs_length]

lemma runAll_resultsFor (classes : List TestClass) :
    ∀ (st : RunnerState) (cn n : String),
      resultsFor (runAll classes st) cn n =
        resultsFor st cn n ++
          ((classes.filter (fun c => c.name == cn)).map
            (fun c => ((classSpecs c).filter (fun sp => sp.1 == n)).map
              (fun sp => caseResult (c.methods sp.1) sp.2))).flatten := by
  induction classes with
  | nil => intro st cn n; simp [runAll]
  | cons c cs ih =>
      intro st cn n
      simp only [runAll, List.foldl_cons] at ih ⊢
      rw [ih (execCases c st (classSpecs c)) cn n, execCases_resultsFor]
      by_cases hc : cn = c.name
      · have hb : (c.name == cn) = true := by simp [hc]
        rw [if_pos hc]
        simp only [List.filter_cons, hb, if_pos, List.map_cons, List.flatten_cons]
        rw [List.append_assoc]
      · have hb : (c.name == cn) = false := by
          simp only [beq_eq_false_iff_ne, ne_eq]
          exact fun hh => hc hh.symm
        rw [if_neg hc]
        simp [List.filter_cons, hb]

/-
Locating one theory inside the planned cases of its class.
-/

lemma theorySpecs_fst (cls : TestClass) (t : String) (sp : CaseSpec)
    (h : sp ∈ theorySpecs cls t) : sp.1 = t := by
  unfold theorySpecs at h
  obtain ⟨args, _, rfl⟩ := List.mem_map.mp h
  rfl

lemma filter_flatten_theorySpecs_nil (cls : TestClass) (ns : List String) (t : String)
    (h : t ∉ ns) :
    ((ns.map (theorySpecs cls)).flatten).filter (fun sp => sp.1 == t) = [] := by
  rw [List.filter_eq_nil_iff]
  intro sp hsp
  obtain ⟨l, hl, hspl⟩ := List.mem_flatten.mp hsp
  obtain ⟨n, hn, rfl⟩ := List.mem_map.mp hl
  have hfst := theorySpecs_fst cls n sp hspl
  rw [hfst]
  simp only [beq_iff_eq]
  exact fun heq => h (heq ▸ hn)

lemma filter_flatten_theorySpecs (cls : TestClass) (ns : List String) (t : String)
    (hnd : ns.Nodup) (ht : t ∈ ns) :
    ((ns.map (theorySpecs cls)).flatten).filter (fun sp => sp.1 == t) =
      theorySpecs cls t := by
  induction ns with
  | nil => cases ht
  | cons n0 ns ih =>
      rw [List.map_cons, List.flatten_cons, List.filter_append]
      rcases List.mem_cons.mp ht with rfl | hmem
      · have h1 : (theorySpecs cls t).filter (fun sp => sp.1 == t) = theorySpecs cls t := by
          rw [List.filter_eq_self]
          intro sp hsp
          simp [theorySpecs_fst cls t sp hsp]
        have hnotin : t ∉ ns := (List.nodup_cons.mp hnd).1
        rw [h1, filter_flatten_theorySpecs_nil cls ns t hnotin, List.append_nil]
      · have hne : n0 ≠ t := by
          rintro rfl
          exact (List.nodup_cons.mp hnd).1 hmem
        have h1 : (theorySpecs cls n0).filter (fun sp => sp.1 == t) = [] := by
          rw [List.filter_eq_nil_iff]
          intro sp hsp
          simp [theorySpecs_fst cls n0 sp hsp, hne]
        rw [h1, List.nil_append, ih (List.nodup_cons.mp hnd).2 hmem]

lemma classSpecs_filter_theory (cls : TestClass) (t : String)
    (hnd : cls.properties.Nodup) (ht : t ∈ cls.properties)
    (hf : cls.hasFactMeta t = false) (hth : cls.hasTheoryMeta t = true) :
    (classSpecs cls).filter (fun sp => sp.1 == t) = theorySpecs cls t := by
  unfold classSpecs
  rw [List.filter_append]
  have hfacts : ((factNames cls).map
      (fun n => ((n, none) : CaseSpec))).filter (fun sp => sp.1 == t) = [] := by
    rw [List.filter_eq_nil_iff]
    intro sp hsp
    obtain ⟨n, hn, rfl⟩ := List.mem_map.mp hsp
    have hnf : cls.hasFactMeta n = true := (List.mem_filter.mp hn).2
    simp only [beq_iff_eq]
    intro heq
    have hnt : n = t := heq
    rw [hnt, hf] at hnf
    cases hnf
  have hthmem : t ∈ theoryNames cls := by
    apply List.mem_filter.mpr
    refine ⟨ht, ?_⟩
    simp [hf, hth]
  have hthnd : (theoryNames cls).Nodup := hnd.filter _
  rw [hfacts, List.nil_append, filter_flatten_theorySpecs cls _ t hthnd hthmem]

lemma filter_name_single (classes : List TestClass) (c : TestClass)
    (hmem : c ∈ classes) (hnames : (classes.map (fun cl => cl.name)).Nodup) :
    classes.filter (fun cl => cl.name == c.name) = [c] := by
  induction classes with
  | nil => cases hmem
  | cons c0 cs ih =>
      rw [List.map_cons, List.nodup_cons] at hnames
      obtain ⟨hnotin, hnd2⟩ := hnames
      rcases List.mem_cons.mp hmem with rfl | hmem2
      · rw [List.filter_cons]
        simp only [beq_self_eq_true, if_pos]
        have hrest : cs.filter (fun cl => cl.name == c.name) = [] := by
          rw [List.filter_eq_nil_iff]
          intro cl hcl
          simp only [beq_iff_eq]
          intro heq
          exact hnotin (List.mem_map.mpr ⟨cl, hcl, heq⟩)
        rw [hrest]
      · have hne : c0.name ≠ c.name := by
          intro heq
          exact hnotin (List.mem_map.mpr ⟨c, hmem2, heq.symm⟩)
        rw [List.filter_cons]
        have hb : (c0.name == c.name) = false := by simp [hne]
        rw [hb]
        simp only [Bool.false_eq_true, if_false]
        exact ih hmem2 hnd2

/-
Concrete test classes used as inputs for counterexamples and witnesses.
-/

/-- A body that returns normally. -/
def okBody : TestMethod := fun _ => Except.ok ()

/-- A body that raises the string value boom. -/
def boomBody : TestMethod := fun _ => Except.error (Value.str "boom")

/-- One class with a single passing Fact named f. -/
def demoK : TestClass :=
  ⟨"K", ["f"], (fun p => p == "f"), (fun _ => false), (fun _ => none), none, fun _ => okBody⟩

/-- One class with one Fact and one Theory carrying two data rows. -/
def demoMix : TestClass :=
  ⟨"M", ["f", "t"], (fun p => p == "f"), (fun p => p == "t"),
    (fun p => if p == "t" then some [[Value.num 1], [Value.num 2]] else none),
    none, fun _ => okBody⟩

/-- One class whose Theory t has no data metadata at all. -/
def demoNoData : TestClass :=
  ⟨"N", ["t"], (fun _ => false), (fun p => p == "t"), (fun _ => none), none, fun _ => okBody⟩

/-- One class with a raising Fact followed by a passing Fact. -/
def demoFailing : TestClass :=
  ⟨"F", ["bad", "good"], (fun p => p == "bad" || p == "good"), (fun _ => false),
    (fun _ => none), none, fun p => if p == "bad" then boomBody else okBody⟩

/-- One class with a single Theory t carrying the rows [1] then [2] in
declaration order. -/
def demoTheoryCls : TestClass :=
  ⟨"T", ["t"], (fun _ => false), (fun p => p == "t"),
    (fun p => if p == "t" then some [[Value.num 1], [Value.num 2]] else none),
    none, fun _ => okBody⟩

/-- One class whose Theory t has a present but empty data-row list and
whose Theory u has one row. -/
def demoEmptyRows : TestClass :=
  ⟨"E", ["t", "u"], (fun _ => false), (fun p => p == "t" || p == "u"),
    (fun p => if p == "t" then some [] else if p == "u" then some [[Value.num 5]] else none),
    none, fun _ => okBody⟩

/-- One class with a passing Fact named works; its methods function also
yields a body for the name destroy, modelling the teardown member of the
README. -/
def demoDestroy : TestClass :=
  ⟨"D", ["works"], (fun p => p == "works"), (fun _ => false), (fun _ => none),
    none, fun _ => okBody⟩

/-- Two classes with no declared load order, distinguished by name. -/
def classNoOrderA : TestClass :=
  ⟨"A", [], (fun _ => false), (fun _ => false), (fun _ => none), none, fun _ => okBody⟩

def classNoOrderB : TestClass :=
  ⟨"B", [], (fun _ => false), (fun _ => false), (fun _ => none), none, fun _ => okBody⟩

/-- Two classes with declared load orders 1 and 2. -/
def classOrder1 : TestClass :=
  ⟨"O1", [], (fun _ => false), (fun _ => false), (fun _ => none), some 1, fun _ => okBody⟩

def classOrder2 : TestClass :=
  ⟨"O2", [], (fun _ => false), (fun _ => false), (fun _ => none), some 2, fun _ => okBody⟩

/-- C1 (amended to a run from a freshly constructed runner): a successful
run over classes with N Fact methods and Theory methods with k_i data rows
each performs exactly N + sum of k_i invocations, records exactly that
many case results, and its passed counter plus failed counter equals the
number of recorded case results. -/
theorem c1_fresh_run_counts (classes : List TestClass) (colors : Bool)
    (st' : RunnerState) (rep : String)
    (h : run classes colors initialState = Except.ok (st', rep)) :
    st'.invocations.length = totalPlanned classes ∧
    totalRecorded st' = totalPlanned classes ∧
    st'.passedTests + st'.failedTests = totalRecorded st' := by
  have hno : classes.any hasDatalessTheory = false := by
    cases hA : classes.any hasDatalessTheory with
    | false => rfl
    | true =>
        obtain ⟨t, cls, heq, _, _, _⟩ := run_error classes colors initialState hA
        rw [heq] at h
        cases h
  rw [run_ok classes colors initialState hno] at h
  injection h with hpair
  have hst : runAll classes { initialState with results := [] } = st' :=
    congrArg Prod.fst hpair
  have hini : ({ initialState with results := [] } : RunnerState) = initialState := rfl
  rw [hini] at hst
  have hcnt := runAll_counters classes initialState
  have hrec := runAll_totalRecorded classes initialState
  have hinv := runAll_invocations classes initialState
  rw [hst] at hcnt hrec hinv
  have hini2 : totalRecorded initialState = 0 := rfl
  have hini3 : initialState.passedTests = 0 := rfl
  have hini4 : initialState.failedTests = 0 := rfl
  have hini5 : initialState.invocations = ([] : List (String × String × List Value)) := rfl
  refine ⟨?_, ?_, ?_⟩
  · rw [hinv, hini5, List.nil_append, plannedInvocations_length]
  · omega
  · omega

/-- C1 counterexample: the claim quantifies over every run, but on a second
run() call of the same runner the counters keep their accumulated values
while the recorded results are rebuilt, so passed plus failed is 2 while
only 1 case result is recorded for a runner holding one passing Fact. -/
theorem c1_counterexample :
    ∃ (st1 : RunnerState) (rep1 : String) (st2 : RunnerState) (rep2 : String),
      run [demoK] false initialState = Except.ok (st1, rep1) ∧
      run [demoK] false st1 = Except.ok (st2, rep2) ∧
      totalPlanned [demoK] = 1 ∧
      totalRecorded st2 = 1 ∧
      st2.passedTests + st2.failedTests = 2 ∧
      st2.passedTests + st2.failedTests ≠ totalRecorded st2 :=
  ⟨_, _, _, _, rfl, rfl, rfl, rfl, rfl, by decide⟩

/-- C1 witness: a fresh runner with one Fact and one two-row Theory. -/
theorem c1_witness :
    ∃ (st' : RunnerState) (rep : String),
      run [demoMix] false initialState = Except.ok (st', rep) ∧
      st'.invocations.length = totalPlanned [demoMix] ∧
      totalRecorded st' = totalPlanned [demoMix] ∧
      st'.passedTests + st'.failedTests = totalRecorded st' :=
  ⟨_, _, rfl, c1_fresh_run_counts [demoMix] false _ _ rfl⟩

/-- C2: run() resets the result aggregate (line 68) but not the passed and
failed counters (lines 51-52), so a second run() of an unchanged runner
accumulates the counters and renders a structurally different report even
with all timing values identical: the code does not implement the reset
the claim describes. -/
theorem c2_counters_not_reset :
    ∃ (st1 : RunnerState) (rep1 : String) (st2 : RunnerState) (rep2 : String),
      run [demoK] false initialState = Except.ok (st1, rep1) ∧
      run [demoK] false st1 = Except.ok (st2, rep2) ∧
      st1.passedTests = 1 ∧ st1.failedTests = 0 ∧ totalRecorded st1 = 1 ∧
      st2.passedTests = 2 ∧ st2.failedTests = 0 ∧ totalRecorded st2 = 1 ∧
      rep1 ≠ rep2 :=
  ⟨_, _, _, _, rfl, rfl, rfl, rfl, rfl, rfl, rfl, rfl, by decide⟩

/-- C3: when some selected Theory method has no data metadata, run()
throws the fatal error naming a data-less Theory method and never reaches
the reporter: no ok result (and hence no report text) is produced. -/
theorem c3_no_data_fatal (classes : List TestClass) (colors : Bool) (st : RunnerState)
    (h : classes.any hasDatalessTheory = true) :
    ∃ t cls, run classes colors st = Except.error (noDataMsg t) ∧
      cls ∈ classes ∧ t ∈ theoryNames cls ∧ cls.testData t = none ∧
      ∀ (st' : RunnerState) (rep : String),
        run classes colors st ≠ Except.ok (st', rep) := by
  obtain ⟨t, cls, heq, hmem, hth, htd⟩ := run_error classes colors st h
  refine ⟨t, cls, heq, hmem, hth, htd, ?_⟩
  intro st' rep hok
  rw [heq] at hok
  cases hok

/-- C3 witness: a runner holding one class whose Theory t has no data
throws exactly the fatal error naming t. -/
theorem c3_witness :
    run [demoNoData] false initialState = Except.error (noDataMsg "t") := by
  obtain ⟨t, cls, heq, hmem, hth, htd⟩ :=
    c3_no_data_fatal [demoNoData] false initialState rfl
  rw [List.mem_singleton] at hmem
  subst hmem
  have ht : t = "t" := by
    have h2 := hth
    rw [show theoryNames demoNoData = ["t"] from rfl, List.mem_singleton] at h2
    exact h2
  rw [ht] at heq
  exact heq

/-- C4: as long as every selected Theory has data metadata, run() returns
an ok result carrying a report no matter which test bodies raise, and its
invocation trace extends the previous one by every planned case of every
class — no failing case prevents a later case or class from executing. -/
theorem c4_failures_do_not_abort (classes : List TestClass) (colors : Bool)
    (st : RunnerState) (h : classes.any hasDatalessTheory = false) :
    ∃ (st' : RunnerState) (rep : String),
      run classes colors st = Except.ok (st', rep) ∧
      st'.invocations = st.invocations ++ plannedInvocations classes := by
  refine ⟨_, _, run_ok classes colors st h, ?_⟩
  rw [runAll_invocations]

/-- C4 witness: a class whose first Fact raises; the second Fact is still
executed and the run completes. -/
theorem c4_witness :
    ∃ (st' : RunnerState) (rep : String),
      run [demoFailing] false initialState = Except.ok (st', rep) ∧
      st'.invocations = initialState.invocations ++ plannedInvocations [demoFailing] :=
  c4_failures_do_not_abort [demoFailing] false initialState rfl

/-- C5: every invocation records exactly one new result under its class
and method name, and that result carries an error message exactly when the
body raised, in which case the message is the tostring of the raised
value. -/
theorem c5_error_message_iff_raised (st : RunnerState) (clsName : String)
    (m : TestMethod) (name : String) (args : Option (List Value)) :
    ∃ r : TestCaseResult,
      resultsFor (runTestCase st clsName m name args).1 clsName name =
        resultsFor st clsName name ++ [r] ∧
      r.errorMessage = (match m (args.getD []) with
        | Except.ok _ => none
        | Except.error e => some (tostring e)) := by
  refine ⟨caseResult m args, ?_, ?_⟩
  · rw [runTestCase_resultsFor, if_pos ⟨rfl, rfl⟩]
  · unfold caseResult
    cases h : m (args.getD []) <;> simp [h]

/-- C6: marking one method m as both Fact and Theory raises no error in
either application order, because both decorators consult
Reflect.hasMetadata without the property key (object-level bucket) while
the marks are defined on the property bucket; both marks end up defined,
contradicting the decorators own doc comments and the NotBoth error they
declare. -/
theorem c6_both_marks_accepted :
    ∃ md1 md2 md3 md4 : Metadata,
      Theory emptyMetadata "m" = Except.ok md1 ∧
      Fact md1 "m" = Except.ok md2 ∧
      hasMetadata md2 Meta.Fact (some "m") = true ∧
      hasMetadata md2 Meta.Theory (some "m") = true ∧
      Fact emptyMetadata "m" = Except.ok md3 ∧
      Theory md3 "m" = Except.ok md4 ∧
      hasMetadata md4 Meta.Fact (some "m") = true ∧
      hasMetadata md4 Meta.Theory (some "m") = true :=
  ⟨_, _, _, _, rfl, rfl, rfl, rfl, rfl, rfl, rfl, rfl⟩

/-- C7 counterexample: for two discovered classes with no declared load
order, the swapped output satisfies the full table.sort contract for the
load-order comparator, yet the tie does not retain its discovery order —
the comparator-sorted-permutation contract does not imply stability. -/
theorem c7_counterexample :
    validSortOutput [classNoOrderA, classNoOrderB] [classNoOrderB, classNoOrderA] ∧
    ¬(ascendingByLoadOrder [classNoOrderB, classNoOrderA] ∧
      tiesKeepDiscoveryOrder [classNoOrderA, classNoOrderB]
        [classNoOrderB, classNoOrderA]) := by
  constructor
  · constructor
    · exact List.Perm.swap classNoOrderA classNoOrderB []
    · refine List.Pairwise.cons ?_ (List.pairwise_singleton _ _)
      intro b hb
      rw [List.mem_singleton] at hb
      subst hb
      rfl
  · intro hcl
    have hties := hcl.2 ⟨0, by decide⟩ ⟨1, by decide⟩ (by decide) rfl
    exact absurd hties (by decide)

/-- C7 (amended): every output the table.sort contract allows is in
ascending declared load order with every ordered class before every
unordered one; the relative order of ties is unspecified because table.sort
is not stable. -/
theorem c7_sorted_by_load_order (input output : List TestClass)
    (h : validSortOutput input output) : ascendingByLoadOrder output := by
  obtain ⟨_, hsorted⟩ := h
  intro i j hij
  have hp := List.pairwise_iff_get.mp hsorted i j hij
  unfold cmpLoadOrder at hp
  cases ha : (output.get i).loadOrder with
  | none =>
      cases hb : (output.get j).loadOrder with
      | none => simp [rankLe]
      | some y =>
          rw [hb, ha] at hp
          simp at hp
  | some x =>
      cases hb : (output.get j).loadOrder with
      | none => simp [rankLe]
      | some y =>
          rw [hb, ha] at hp
          simp at hp
          simp [rankLe]
          omega

/-- C7 witness: two classes with declared orders 1 and 2, kept in place. -/
theorem c7_witness :
    validSortOutput [classOrder1, classOrder2] [classOrder1, classOrder2] ∧
    ascendingByLoadOrder [classOrder1, classOrder2] := by
  have hvs : validSortOutput [classOrder1, classOrder2] [classOrder1, classOrder2] := by
    constructor
    · exact List.Perm.refl _
    · refine List.Pairwise.cons ?_ (List.pairwise_singleton _ _)
      intro b hb
      rw [List.mem_singleton] at hb
      subst hb
      decide
  exact ⟨hvs, c7_sorted_by_load_order _ _ hvs⟩

/-- C8: for a selected Theory method t with attached rows r1..rn (in
declaration order), a successful runTestClass appends to the result list
of t exactly the case results of rn, ..., r1 in that execution order, each
carrying its row as inputs. -/
theorem c8_rows_executed_in_reverse (cls : TestClass) (st st' : RunnerState)
    (t : String) (rows : List (List Value))
    (hnd : cls.properties.Nodup) (ht : t ∈ cls.properties)
    (hf : cls.hasFactMeta t = false) (hth : cls.hasTheoryMeta t = true)
    (hrows : cls.testData t = some rows)
    (hok : runTestClass st cls = Except.ok st') :
    resultsFor st' cls.name t =
      resultsFor st cls.name t ++
        rows.reverse.map (fun args => caseResult (cls.methods t) (some args)) := by
  have hno : hasDatalessTheory cls = false := by
    cases hA : hasDatalessTheory cls with
    | false => rfl
    | true =>
        obtain ⟨t0, heq, _, _⟩ := runTestClass_error cls st hA
        rw [heq] at hok
        cases hok
  rw [runTestClass_ok cls st hno] at hok
  injection hok with hst
  subst hst
  rw [execCases_resultsFor, if_pos rfl, classSpecs_filter_theory cls t hnd ht hf hth]
  unfold theorySpecs
  rw [hrows, Option.getD_some, List.map_map]
  rfl

/-- C8 witness: the two-row Theory records its cases with inputs [2] first
and [1] last. -/
theorem c8_witness :
    ∃ st' : RunnerState, runTestClass initialState demoTheoryCls = Except.ok st' ∧
      resultsFor st' "T" "t" =
        resultsFor initialState "T" "t" ++
          ([[Value.num 1], [Value.num 2]] : List (List Value)).reverse.map
            (fun args => caseResult (demoTheoryCls.methods "t") (some args)) := by
  refine ⟨_, rfl, ?_⟩
  exact c8_rows_executed_in_reverse demoTheoryCls initialState _ "t"
    [[Value.num 1], [Value.num 2]] (by decide) (by decide) rfl rfl rfl rfl

/-- C9: the runner never invokes a teardown method: for a class carrying a
destroy member and one passing Fact, the whole run() performs exactly one
invocation, of the Fact, and none of destroy — the automatic teardown the
README documents does not happen. -/
theorem c9_destroy_never_invoked :
    ∃ (st : RunnerState) (rep : String),
      run [demoDestroy] false initialState = Except.ok (st, rep) ∧
      st.invocations = [("D", "works", [])] ∧
      (st.invocations.filter (fun inv => inv.2.1 == "destroy")).length = 0 :=
  ⟨_, _, rfl, rfl, rfl⟩

/-- C10: a Theory whose data metadata is a present but empty row list does
not trip the fatal no-data error: the run succeeds and records no result
under that method, while every other method still runs. -/
theorem c10_empty_rows_run_ok (classes : List TestClass) (colors : Bool)
    (c : TestClass) (t : String)
    (hmem : c ∈ classes)
    (hnames : (classes.map (fun cl => cl.name)).Nodup)
    (hnd : c.properties.Nodup)
    (ht : t ∈ c.properties) (hf : c.hasFactMeta t = false)
    (hth : c.hasTheoryMeta t = true)
    (hdata : c.testData t = some [])
    (hall : classes.any hasDatalessTheory = false) :
    ∃ (st' : RunnerState) (rep : String),
      run classes colors initialState = Except.ok (st', rep) ∧
      resultsFor st' c.name t = [] ∧
      st'.invocations.length = totalPlanned classes := by
  refine ⟨_, _, run_ok classes colors initialState hall, ?_, ?_⟩
  · rw [runAll_resultsFor, filter_name_single classes c hmem hnames]
    simp only [List.map_cons, List.map_nil, List.flatten_cons, List.flatten_nil,
      List.append_nil]
    rw [classSpecs_filter_theory c t hnd ht hf hth]
    unfold theorySpecs
    rw [hdata]
    rfl
  · rw [runAll_invocations]
    have hini : ({ initialState with results := [] } : RunnerState).invocations =
      ([] : List (String × String × List Value)) := rfl
    rw [hini, List.nil_append, plannedInvocations_length]

/-- C10 witness: the class with an empty-row Theory t and a one-row Theory
u runs to completion with no result under t and one invocation (of u). -/
theorem c10_witness :
    ∃ (st' : RunnerState) (rep : String),
      run [demoEmptyRows] false initialState = Except.ok (st', rep) ∧
      resultsFor st' "E" "t" = [] ∧
      st'.invocations.length = totalPlanned [demoEmptyRows] :=
  c10_empty_rows_run_ok [demoEmptyRows] false demoEmptyRows "t"
    (List.mem_singleton.mpr rfl) (by decide) (by decide) (by decide) rfl rfl rfl rfl

end Runit


